import Mathlib

/-!
Shallow embedding of the LC-3 virtual machine from `src/LC3_VM.c`.

Machine words are modelled as `Nat`; every store into a `uint16_t`
location performs an explicit `% 65536`, mirroring C's conversion on
assignment.  Memory and the register file are modelled as total
functions `Nat → Nat` (the register file has indices 0..9, with 8 = PC
and 9 = COND, exactly as the C `reg` array).  Console input is a list
of pending stdin bytes; console output is the list of bytes written so
far.  The fetch-decode-execute loop body (`main`'s `while` body) is the
`step` function; `abort()` on illegal opcodes is modelled as `none`.
-/

/-- Memory mapped keyboard status register address (`MR_KBSR`). -/
def MR_KBSR : Nat := 0xFE00

/-- Memory mapped keyboard data register address (`MR_KBDR`). -/
def MR_KBDR : Nat := 0xFE02

/-- `R_R0` register index. -/
def R_R0 : Nat := 0

/-- `R_R7` register index. -/
def R_R7 : Nat := 7

/-- `R_PC` register index. -/
def R_PC : Nat := 8

/-- `R_COND` register index. -/
def R_COND : Nat := 9

/-- Condition flag `FL_POS = 1 << 0`. -/
def FL_POS : Nat := 1

/-- Condition flag `FL_ZRO = 1 << 1`. -/
def FL_ZRO : Nat := 2

/-- Condition flag `FL_NEG = 1 << 2`. -/
def FL_NEG : Nat := 4

/-- `UINT16_MAX` from `<stdint.h>`: 65535. -/
def UINT16_MAX : Nat := 65535

/-- The declared length of the C array `uint16_t memory[UINT16_MAX]`:
it has `UINT16_MAX = 65535` elements, valid indices 0 .. 65534. -/
def memory_length : Nat := UINT16_MAX

/-- Pointwise update of a function, modelling an array store. -/
def upd (f : Nat → Nat) (i v : Nat) : Nat → Nat :=
  fun j => if j = i then v else f j

@[simp] theorem upd_same (f : Nat → Nat) (i v : Nat) : upd f i v i = v := by
  simp [upd]

@[simp] theorem upd_ne (f : Nat → Nat) (i v j : Nat) (h : j ≠ i) :
    upd f i v j = f j := by
  simp [upd, h]

/-- `sign_extend` from the source: if bit `bit_count - 1` of `x` is set,
or in `0xFFFF << bit_count`; the result is stored into a `uint16_t`,
hence the `% 65536`. -/
def sign_extend (x : Nat) (bit_count : Nat) : Nat :=
  if (x >>> (bit_count - 1)) &&& 1 ≠ 0 then
    (x ||| (0xFFFF <<< bit_count)) % 65536
  else
    x

/-- `swap16` from the source: `(x << 8) | (x >> 8)` truncated to 16 bits. -/
def swap16 (x : Nat) : Nat :=
  ((x <<< 8) ||| (x >>> 8)) % 65536

/-- `update_flags` from the source: set `reg[R_COND]` from the value of
register `r`. -/
def update_flags (reg : Nat → Nat) (r : Nat) : Nat → Nat :=
  if reg r = 0 then
    upd reg R_COND FL_ZRO
  else if reg r >>> 15 ≠ 0 then
    upd reg R_COND FL_NEG
  else
    upd reg R_COND FL_POS

/-- `check_key` from the source: non-blocking poll of stdin.  The console
contract is modelled by a list of pending input bytes: a key is
available exactly when the list is nonempty. -/
def check_key (input : List Nat) : Bool :=
  !input.isEmpty

/-- `getchar`: consume the next pending byte (as an `int` stored into a
16-bit location; on empty input C's `getchar` yields `EOF = -1`, whose
`uint16_t` conversion is 65535). -/
def getchar (input : List Nat) : Nat × List Nat :=
  match input with
  | [] => (65535, [])
  | c :: rest => (c % 65536, rest)

/-- The architectural state of the VM plus its console streams. -/
structure VM where
  mem : Nat → Nat
  reg : Nat → Nat
  input : List Nat
  output : List Nat
  running : Bool

/-- `mem_write` from the source: `memory[address] = value`. -/
def mem_write (address value : Nat) (mem : Nat → Nat) : Nat → Nat :=
  upd mem address (value % 65536)

/-- `mem_read` from the source: reading `MR_KBSR` first polls the
console, setting `memory[MR_KBSR]` (and on a keypress `memory[MR_KBDR]`
from `getchar()`), then returns `memory[address]`. -/
def mem_read (address : Nat) (s : VM) : Nat × VM :=
  if address = MR_KBSR then
    if check_key s.input then
      let g := getchar s.input
      let mem1 := upd (upd s.mem MR_KBSR (1 <<< 15)) MR_KBDR (g.1 % 65536)
      (mem1 address, { s with mem := mem1, input := g.2 })
    else
      let mem1 := upd s.mem MR_KBSR 0
      (mem1 address, { s with mem := mem1 })
  else
    (s.mem address, s)

/-- `op_ADD` from the source (register file part of the state). -/
def op_ADD (instr : Nat) (reg : Nat → Nat) : Nat → Nat :=
  let DR := (instr >>> 9) &&& 0x7
  let SR1 := (instr >>> 6) &&& 0x7
  let imm_flag := (instr >>> 5) &&& 0x1
  let reg1 :=
    if imm_flag ≠ 0 then
      let imm5 := sign_extend (instr &&& 0x1F) 5
      upd reg DR ((reg SR1 + imm5) % 65536)
    else
      let SR2 := instr &&& 0x7
      upd reg DR ((reg SR1 + reg SR2) % 65536)
  update_flags reg1 DR

/-- `op_AND` from the source. -/
def op_AND (instr : Nat) (reg : Nat → Nat) : Nat → Nat :=
  let DR := (instr >>> 9) &&& 0x7
  let SR1 := (instr >>> 6) &&& 0x7
  let imm_flag := (instr >>> 5) &&& 0x1
  let reg1 :=
    if imm_flag ≠ 0 then
      let imm5 := sign_extend (instr &&& 0x1F) 5
      upd reg DR ((reg SR1 &&& imm5) % 65536)
    else
      let SR2 := instr &&& 0x7
      upd reg DR ((reg SR1 &&& reg SR2) % 65536)
  update_flags reg1 DR

/-- `op_NOT` from the source; `~` on a 16-bit word is xor with 0xFFFF. -/
def op_NOT (instr : Nat) (reg : Nat → Nat) : Nat → Nat :=
  let DR := (instr >>> 9) &&& 0x7
  let SR := (instr >>> 6) &&& 0x7
  let reg1 := upd reg DR ((reg SR ^^^ 0xFFFF) % 65536)
  update_flags reg1 DR

/-- `op_BR` from the source. -/
def op_BR (instr : Nat) (reg : Nat → Nat) : Nat → Nat :=
  let PC_offset := sign_extend (instr &&& 0x1FF) 9
  let cond_flag := (instr >>> 9) &&& 0x7
  if cond_flag &&& reg R_COND ≠ 0 then
    upd reg R_PC ((reg R_PC + PC_offset) % 65536)
  else
    reg

/-- `op_JMP` from the source. -/
def op_JMP (instr : Nat) (reg : Nat → Nat) : Nat → Nat :=
  let BaseR := (instr >>> 6) &&& 0x7
  upd reg R_PC (reg BaseR)

/-- `op_JSR` from the source: `reg[R_R7] = reg[R_PC]` happens first,
then PC is updated in either mode. -/
def op_JSR (instr : Nat) (reg : Nat → Nat) : Nat → Nat :=
  let reg1 := upd reg R_R7 (reg R_PC)
  if (instr >>> 11) &&& 1 ≠ 0 then
    let PC_offset := sign_extend (instr &&& 0x7FF) 11
    upd reg1 R_PC ((reg1 R_PC + PC_offset) % 65536)
  else
    let BaseR := (instr >>> 6) &&& 0x7
    upd reg1 R_PC (reg1 BaseR)

/-- `op_LD` from the source. -/
def op_LD (instr : Nat) (s : VM) : VM :=
  let DR := (instr >>> 9) &&& 0x7
  let PC_offset := sign_extend (instr &&& 0x1FF) 9
  let r := mem_read ((s.reg R_PC + PC_offset) % 65536) s
  let reg1 := upd r.2.reg DR (r.1 % 65536)
  { r.2 with reg := update_flags reg1 DR }

/-- `op_LDI` from the source: two `mem_read`s in sequence. -/
def op_LDI (instr : Nat) (s : VM) : VM :=
  let DR := (instr >>> 9) &&& 0x7
  let PC_offset := sign_extend (instr &&& 0x1FF) 9
  let r1 := mem_read ((s.reg R_PC + PC_offset) % 65536) s
  let r2 := mem_read (r1.1 % 65536) r1.2
  let reg1 := upd r2.2.reg DR (r2.1 % 65536)
  { r2.2 with reg := update_flags reg1 DR }

/-- `op_LDR` from the source. -/
def op_LDR (instr : Nat) (s : VM) : VM :=
  let DR := (instr >>> 9) &&& 0x7
  let BaseR := (instr >>> 6) &&& 0x7
  let offset := sign_extend (instr &&& 0x3F) 6
  let r := mem_read ((s.reg BaseR + offset) % 65536) s
  let reg1 := upd r.2.reg DR (r.1 % 65536)
  { r.2 with reg := update_flags reg1 DR }

/-- `op_LEA` from the source. -/
def op_LEA (instr : Nat) (reg : Nat → Nat) : Nat → Nat :=
  let DR := (instr >>> 9) &&& 0x7
  let PC_offset := sign_extend (instr &&& 0x1FF) 9
  let reg1 := upd reg DR ((reg R_PC + PC_offset) % 65536)
  update_flags reg1 DR

/-- `op_ST` from the source. -/
def op_ST (instr : Nat) (s : VM) : VM :=
  let SR := (instr >>> 9) &&& 0x7
  let PC_offset := sign_extend (instr &&& 0x1FF) 9
  { s with mem := mem_write ((s.reg R_PC + PC_offset) % 65536) (s.reg SR) s.mem }

/-- `op_STI` from the source: the target address comes from a `mem_read`. -/
def op_STI (instr : Nat) (s : VM) : VM :=
  let SR := (instr >>> 9) &&& 0x7
  let PC_offset := sign_extend (instr &&& 0x1FF) 9
  let r := mem_read ((s.reg R_PC + PC_offset) % 65536) s
  { r.2 with mem := mem_write (r.1 % 65536) (r.2.reg SR) r.2.mem }

/-- `op_STR` from the source. -/
def op_STR (instr : Nat) (s : VM) : VM :=
  let SR := (instr >>> 9) &&& 0x7
  let BaseR := (instr >>> 6) &&& 0x7
  let offset := sign_extend (instr &&& 0x3F) 6
  { s with mem := mem_write ((s.reg BaseR + offset) % 65536) (s.reg SR) s.mem }

/-- `op_TRAP` from the source.  Note: this function is defined in the C
file but is never called by `main`; `main` dispatches trap vectors
directly (see `execTrap`). -/
def op_TRAP (instr : Nat) (s : VM) : VM :=
  let trap_vect := sign_extend (instr &&& 0xFF) 8
  let reg1 := upd s.reg R_R7 (s.reg R_PC)
  let r := mem_read trap_vect { s with reg := reg1 }
  { r.2 with reg := upd r.2.reg R_PC (r.1 % 65536) }

/-- `trap_GETC` from the source: `reg[R_R0] = (uint16_t) getchar()`. -/
def trap_GETC (s : VM) : VM :=
  let g := getchar s.input
  { s with reg := upd s.reg R_R0 (g.1 % 65536), input := g.2 }

/-- `trap_OUT` from the source: write the low byte of `reg[R_R0]`. -/
def trap_OUT (s : VM) : VM :=
  { s with output := s.output ++ [s.reg R_R0 &&& 0xFF] }

/-- The characters emitted by the `trap_PUTS` loop: one low byte per
word starting at `addr`, until a zero word.  The fuel bounds the walk
(the C loop walks raw memory and is undefined past the array end). -/
def puts_chars (mem : Nat → Nat) : Nat → Nat → List Nat
  | _, 0 => []
  | addr, fuel + 1 =>
    if mem addr = 0 then []
    else (mem addr &&& 0xFF) :: puts_chars mem (addr + 1) fuel

/-- `trap_PUTS` from the source. -/
def trap_PUTS (s : VM) : VM :=
  { s with output := s.output ++ puts_chars s.mem (s.reg R_R0) 65536 }

/-- `trap_IN` from the source: print the prompt, read a character into
the signed `char c`, store `(uint16_t) c` (sign-extending bit 7) into
`reg[R_R0]`, and echo it. -/
def trap_IN (s : VM) : VM :=
  let g := getchar s.input
  let c := g.1 &&& 0xFF
  { s with
    reg := upd s.reg R_R0 (if c >>> 7 ≠ 0 then (c ||| 0xFF00) else c),
    input := g.2,
    output := s.output ++ (("Enter a character: ".toList).map Char.toNat) ++ [c] }

/-- The characters emitted by the `trap_PUTSP` loop: for each nonzero
word, its low byte, then—if the high byte is nonzero—its high byte;
the loop stops at a zero word or a word with a zero high byte. -/
def putsp_chars (mem : Nat → Nat) : Nat → Nat → List Nat
  | _, 0 => []
  | addr, fuel + 1 =>
    if mem addr = 0 then []
    else if mem addr >>> 8 = 0 then [mem addr &&& 0xFF]
    else (mem addr &&& 0xFF) :: ((mem addr >>> 8) &&& 0xFF) ::
      putsp_chars mem (addr + 1) fuel

/-- `trap_PUTSP` from the source. -/
def trap_PUTSP (s : VM) : VM :=
  { s with output := s.output ++ putsp_chars s.mem (s.reg R_R0) 65536 }

/-- `trap_HALT` from the source: `puts("HALT")` and clear the running
flag. -/
def trap_HALT (s : VM) : VM :=
  { s with
    output := s.output ++ (("HALT".toList).map Char.toNat) ++ [10],
    running := false }

/-- The trap sub-switch of `main` (`switch (instr & 0xFF)`).  It does
NOT write `reg[R_R7]` and does not call `op_TRAP`; an unknown vector
falls through with no effect. -/
def execTrap (instr : Nat) (s : VM) : VM :=
  let v := instr &&& 0xFF
  if v = 0x20 then trap_GETC s
  else if v = 0x21 then trap_OUT s
  else if v = 0x22 then trap_PUTS s
  else if v = 0x23 then trap_IN s
  else if v = 0x24 then trap_PUTSP s
  else if v = 0x25 then trap_HALT s
  else s

/-- The opcode switch of `main`, applied to the post-fetch state.
`OP_RES` (13), `OP_RTI` (8) and unknown opcodes hit `abort()`,
modelled as `none`. -/
def execInstr (instr : Nat) (s : VM) : Option VM :=
  let op := instr >>> 12
  if op = 0 then some { s with reg := op_BR instr s.reg }
  else if op = 1 then some { s with reg := op_ADD instr s.reg }
  else if op = 2 then some (op_LD instr s)
  else if op = 3 then some (op_ST instr s)
  else if op = 4 then some { s with reg := op_JSR instr s.reg }
  else if op = 5 then some { s with reg := op_AND instr s.reg }
  else if op = 6 then some (op_LDR instr s)
  else if op = 7 then some (op_STR instr s)
  else if op = 9 then some { s with reg := op_NOT instr s.reg }
  else if op = 10 then some (op_LDI instr s)
  else if op = 11 then some (op_STI instr s)
  else if op = 12 then some { s with reg := op_JMP instr s.reg }
  else if op = 14 then some { s with reg := op_LEA instr s.reg }
  else if op = 15 then some (execTrap instr s)
  else none

/-- The instruction word fetched by `mem_read(reg[R_PC]++)`. -/
def fetched (s : VM) : Nat :=
  (mem_read (s.reg R_PC) s).1

/-- The state after the fetch: `mem_read`'s device side effects plus
the post-increment of PC (wrapping modulo 2^16). -/
def postFetch (s : VM) : VM :=
  let f := mem_read (s.reg R_PC) s
  { f.2 with reg := upd f.2.reg R_PC ((f.2.reg R_PC + 1) % 65536) }

/-- One iteration of `main`'s fetch-decode-execute loop. -/
def step (s : VM) : Option VM :=
  execInstr (fetched s) (postFetch s)

/-- The startup state of `main`: registers zero, `PC = 0x3000`,
memory as left by the loader, empty output, running. -/
def startVM (mem : Nat → Nat) (input : List Nat) : VM :=
  { mem := mem
    reg := upd (fun _ => 0) R_PC 0x3000
    input := input
    output := []
    running := true }

/-! ### Bit-level bridging lemmas -/

theorem shiftRight_and_one (x k : Nat) :
    ((x >>> k) &&& 1 ≠ 0) ↔ Nat.testBit x k = true := by
  rw [Nat.and_one_is_mod, Nat.shiftRight_eq_div_pow, Nat.testBit_to_div_mod]
  simp only [decide_eq_true_eq]
  omega

theorem shift15_iff_testBit (v : Nat) (hv : v < 65536) :
    (v >>> 15 ≠ 0) ↔ Nat.testBit v 15 = true := by
  rw [← shiftRight_and_one, Nat.and_one_is_mod]
  have h15 : v >>> 15 = v / 2 ^ 15 := Nat.shiftRight_eq_div_pow v 15
  have hp : (2 : Nat) ^ 15 = 32768 := by norm_num
  rw [h15, hp]
  omega

theorem and7_lt_8 (y : Nat) : y &&& 7 < 8 :=
  lt_of_le_of_lt Nat.and_le_right (by norm_num)

/-! ### Register-file lemmas -/

theorem mem_read_reg (a : Nat) (s : VM) : (mem_read a s).2.reg = s.reg := by
  rw [mem_read]
  split
  · split <;> rfl
  · rfl

theorem postFetch_reg (s : VM) :
    (postFetch s).reg = upd s.reg R_PC ((s.reg R_PC + 1) % 65536) := by
  simp [postFetch, mem_read_reg]

theorem update_flags_at_cond (reg : Nat → Nat) (j : Nat) :
    (update_flags reg j) R_COND =
      if reg j = 0 then FL_ZRO else if reg j >>> 15 ≠ 0 then FL_NEG else FL_POS := by
  unfold update_flags
  split_ifs <;> simp

theorem update_flags_at_ne (reg : Nat → Nat) (j i : Nat) (h : i ≠ R_COND) :
    (update_flags reg j) i = reg i := by
  unfold update_flags
  split_ifs <;> simp [upd_ne _ _ _ _ h]

/-- The common shape of every flag-updating destination write: register
`DR < 8` receives a 16-bit value `v`, then `update_flags` runs on `DR`.
Afterwards COND holds the one-hot flag of the new `DR` value. -/
theorem flags_one_hot_of_upd (base : Nat → Nat) (DR v : Nat)
    (hDR : DR < 8) (hv : v < 65536) :
    (update_flags (upd base DR v) DR) R_COND =
      (if (update_flags (upd base DR v) DR) DR = 0 then FL_ZRO
       else if Nat.testBit ((update_flags (upd base DR v) DR) DR) 15 then FL_NEG
       else FL_POS) ∧
    ((update_flags (upd base DR v) DR) R_COND = FL_NEG ∨
     (update_flags (upd base DR v) DR) R_COND = FL_ZRO ∨
     (update_flags (upd base DR v) DR) R_COND = FL_POS) := by
  have hne : DR ≠ R_COND := by rw [R_COND]; omega
  have hDRval : (update_flags (upd base DR v) DR) DR = v := by
    rw [update_flags_at_ne _ _ _ hne, upd_same]
  have hcond := update_flags_at_cond (upd base DR v) DR
  rw [upd_same] at hcond
  rw [hDRval, hcond]
  refine ⟨?_, ?_⟩
  · simp only [shift15_iff_testBit v hv]
  · split_ifs <;> simp

/-! ### Claim theorems (first batch) -/

/-- C2 (code bug): the spec promises 65,536 memory words so that every
16-bit address including 0xFFFF is in bounds, but the C declaration
`uint16_t memory[UINT16_MAX]` allocates only `UINT16_MAX = 65535`
cells, so index 0xFFFF is out of bounds. -/
theorem memory_top_address_out_of_bounds :
    memory_length = 65535 ∧ ¬((0xFFFF : Nat) < memory_length) := by
  constructor <;> decide

/-- C5: `sign_extend(x, n)` returns `x` when bit `n-1` of `x` is clear,
and `x | (0xFFFF << n)` truncated to 16 bits when it is set, for every
16-bit `x` and every `n` in 1..16. -/
theorem sign_extend_spec (x n : Nat) (_hx : x < 65536) (_h1 : 1 ≤ n) (_h2 : n ≤ 16) :
    (Nat.testBit x (n - 1) = false → sign_extend x n = x) ∧
    (Nat.testBit x (n - 1) = true →
      sign_extend x n = (x ||| (0xFFFF <<< n)) % 65536) := by
  constructor
  · intro hbit
    have h' : ¬((x >>> (n - 1)) &&& 1 ≠ 0) := by
      rw [shiftRight_and_one, hbit]; simp
    rw [sign_extend, if_neg h']
  · intro hbit
    have h' : (x >>> (n - 1)) &&& 1 ≠ 0 := by
      rw [shiftRight_and_one]; exact hbit
    rw [sign_extend, if_pos h']

theorem sign_extend_spec_witness :
    (16 : Nat) < 65536 ∧ 1 ≤ 5 ∧ 5 ≤ 16 ∧ Nat.testBit 16 4 = true ∧
    sign_extend 16 5 = 0xFFF0 :=
  ⟨by decide, by decide, by decide, by decide, by
    have h := (sign_extend_spec 16 5 (by decide) (by decide) (by decide)).2 (by decide)
    exact h.trans (by decide)⟩

/-- The state used for the C1 evaluation: the startup state with a
`TRAP HALT` (0xF025) instruction at 0x3000 and R7 = 0. -/
def c1s : VM := startVM (upd (fun _ => 0) 0x3000 0xF025) []

/-- C1 (code bug): the spec says a TRAP with an implemented vector
first sets R7 to the post-increment PC (here 0x3001), but `main`'s
TRAP case dispatches to the handler without writing R7 (`op_TRAP`,
which does write R7, is never called): after executing the TRAP at
0x3000, R7 is still 0, not 0x3001, while the handler did run (the
running flag was cleared by HALT). -/
theorem trap_does_not_set_r7 :
    ((step c1s).map fun t => (t.reg R_R7, t.reg R_PC, t.running)) =
      some (0, 0x3001, false) ∧
    (0 : Nat) ≠ 0x3001 := by
  constructor <;> decide

/-- The startup state with a `BRnzp #1` (mask 0b111) instruction at
0x3000: registers and COND are zero, as at startup. -/
def c4s : VM := startVM (upd (fun _ => 0) 0x3000 0x0E01) []

/-- C4 counterexample: at the startup state itself (COND = 0, reachable
after startup), BR with condition mask 0b111 does NOT add the
sign-extended offset to PC: PC ends at 0x3001 (the post-fetch value),
not at 0x3001 + sign_extend(1, 9) = 0x3002. -/
theorem br_always_jumps_fails_at_startup :
    fetched c4s >>> 12 = 0 ∧ (fetched c4s >>> 9) &&& 7 = 7 ∧
    ((step c4s).map fun t => t.reg R_PC) = some 0x3001 ∧
    (0x3001 : Nat) ≠ (0x3001 + sign_extend (fetched c4s &&& 0x1FF) 9) % 65536 := by
  refine ⟨by decide, by decide, by decide, by decide⟩

/-! ### COND-preservation lemmas for the non-flag-updating operations -/

theorem op_BR_at_cond (instr : Nat) (r : Nat → Nat) :
    (op_BR instr r) R_COND = r R_COND := by
  unfold op_BR
  split_ifs with h
  · exact upd_ne _ _ _ _ (by decide)
  · rfl

theorem op_JMP_at_cond (instr : Nat) (r : Nat → Nat) :
    (op_JMP instr r) R_COND = r R_COND := by
  unfold op_JMP
  exact upd_ne _ _ _ _ (by decide)

theorem op_JSR_at_cond (instr : Nat) (r : Nat → Nat) :
    (op_JSR instr r) R_COND = r R_COND := by
  unfold op_JSR
  split_ifs with h <;>
    rw [upd_ne _ _ _ _ (by decide), upd_ne _ _ _ _ (by decide)]

theorem execTrap_at_cond (instr : Nat) (s : VM) :
    (execTrap instr s).reg R_COND = s.reg R_COND := by
  unfold execTrap trap_GETC trap_OUT trap_PUTS trap_IN trap_PUTSP trap_HALT
  dsimp only
  split_ifs <;> simp [upd_ne _ _ _ _ (by decide : R_COND ≠ R_R0)]

theorem op_ST_reg (instr : Nat) (s : VM) : (op_ST instr s).reg = s.reg := rfl

theorem op_STR_reg (instr : Nat) (s : VM) : (op_STR instr s).reg = s.reg := rfl

theorem op_STI_reg (instr : Nat) (s : VM) : (op_STI instr s).reg = s.reg := by
  unfold op_STI
  simp [mem_read_reg]

theorem postFetch_at_cond (s : VM) :
    (postFetch s).reg R_COND = s.reg R_COND := by
  rw [postFetch_reg]
  exact upd_ne _ _ _ _ (by decide)

theorem flags_goal_of_shape (t : VM) (DR : Nat) (hDR : DR < 8)
    (hshape : ∃ base v, v < 65536 ∧ t.reg = update_flags (upd base DR v) DR) :
    t.reg R_COND =
      (if t.reg DR = 0 then FL_ZRO
       else if Nat.testBit (t.reg DR) 15 then FL_NEG else FL_POS) ∧
    (t.reg R_COND = FL_NEG ∨ t.reg R_COND = FL_ZRO ∨ t.reg R_COND = FL_POS) := by
  obtain ⟨base, v, hv, hr⟩ := hshape
  rw [hr]
  exact flags_one_hot_of_upd base DR v hDR hv

/-- C3: for every state, executing an instruction that designates a
destination register (ADD = 1, LD = 2, AND = 5, LDR = 6, NOT = 9,
LDI = 10, LEA = 14) leaves COND equal to exactly one of N = 0b100,
Z = 0b010, P = 0b001: Z if the new DR value is zero, N if its bit 15
is set, P otherwise; every other executed instruction leaves COND
unchanged. -/
theorem dr_ops_update_flags (s t : VM) (h : step s = some t) :
    ((fetched s >>> 12 = 1 ∨ fetched s >>> 12 = 2 ∨ fetched s >>> 12 = 5 ∨
      fetched s >>> 12 = 6 ∨ fetched s >>> 12 = 9 ∨ fetched s >>> 12 = 10 ∨
      fetched s >>> 12 = 14) →
      t.reg R_COND =
        (if t.reg ((fetched s >>> 9) &&& 7) = 0 then FL_ZRO
         else if Nat.testBit (t.reg ((fetched s >>> 9) &&& 7)) 15 then FL_NEG
         else FL_POS) ∧
      (t.reg R_COND = FL_NEG ∨ t.reg R_COND = FL_ZRO ∨ t.reg R_COND = FL_POS)) ∧
    (¬(fetched s >>> 12 = 1 ∨ fetched s >>> 12 = 2 ∨ fetched s >>> 12 = 5 ∨
      fetched s >>> 12 = 6 ∨ fetched s >>> 12 = 9 ∨ fetched s >>> 12 = 10 ∨
      fetched s >>> 12 = 14) →
      t.reg R_COND = s.reg R_COND) := by
  constructor
  · rintro (hop | hop | hop | hop | hop | hop | hop) <;>
      (rw [step] at h
       simp only [execInstr, hop] at h
       norm_num at h
       subst h
       refine flags_goal_of_shape _ _ (and7_lt_8 _) ?_)
    · unfold op_ADD
      dsimp only
      split_ifs
      · exact ⟨_, _, Nat.mod_lt _ (by norm_num), rfl⟩
      · exact ⟨_, _, Nat.mod_lt _ (by norm_num), rfl⟩
    · unfold op_LD
      dsimp only
      exact ⟨_, _, Nat.mod_lt _ (by norm_num), rfl⟩
    · unfold op_AND
      dsimp only
      split_ifs
      · exact ⟨_, _, Nat.mod_lt _ (by norm_num), rfl⟩
      · exact ⟨_, _, Nat.mod_lt _ (by norm_num), rfl⟩
    · unfold op_LDR
      dsimp only
      exact ⟨_, _, Nat.mod_lt _ (by norm_num), rfl⟩
    · unfold op_NOT
      dsimp only
      exact ⟨_, _, Nat.mod_lt _ (by norm_num), rfl⟩
    · unfold op_LDI
      dsimp only
      exact ⟨_, _, Nat.mod_lt _ (by norm_num), rfl⟩
    · unfold op_LEA
      dsimp only
      exact ⟨_, _, Nat.mod_lt _ (by norm_num), rfl⟩
  · intro hnot
    push_neg at hnot
    obtain ⟨n1, n2, n5, n6, n9, n10, n14⟩ := hnot
    rw [step] at h
    unfold execInstr at h
    dsimp only at h
    split_ifs at h with b0 b3 b4 b7 b11 b12 b15
    · rw [← Option.some.inj h]
      dsimp only
      rw [op_BR_at_cond]
      exact postFetch_at_cond s
    · rw [← Option.some.inj h]
      rw [op_ST_reg]
      exact postFetch_at_cond s
    · rw [← Option.some.inj h]
      dsimp only
      rw [op_JSR_at_cond]
      exact postFetch_at_cond s
    · rw [← Option.some.inj h]
      rw [op_STR_reg]
      exact postFetch_at_cond s
    · rw [← Option.some.inj h]
      rw [op_STI_reg]
      exact postFetch_at_cond s
    · rw [← Option.some.inj h]
      dsimp only
      rw [op_JMP_at_cond]
      exact postFetch_at_cond s
    · rw [← Option.some.inj h]
      rw [execTrap_at_cond]
      exact postFetch_at_cond s

/-- Startup state with `ADD R1, R1, #1` at 0x3000, for the C3 witness. -/
def c3s : VM := startVM (upd (fun _ => 0) 0x3000 0x1261) []

theorem dr_ops_update_flags_witness :
    step c3s = some ((step c3s).getD c3s) ∧
    ((step c3s).getD c3s).reg R_COND = FL_POS := by
  refine ⟨rfl, ?_⟩
  have h := (dr_ops_update_flags c3s ((step c3s).getD c3s) rfl).1 (Or.inl (by decide))
  exact h.1.trans (by decide)

/-! ### JSR and BR step lemmas -/

theorem step_jsr (s : VM) (instr : Nat) (hf : fetched s = instr)
    (hop : instr >>> 12 = 4) :
    step s = some { postFetch s with reg := op_JSR instr (postFetch s).reg } := by
  rw [step, hf]
  simp [execInstr, hop]

theorem step_br (s : VM) (instr : Nat) (hf : fetched s = instr)
    (hop : instr >>> 12 = 0) :
    step s = some { postFetch s with reg := op_BR instr (postFetch s).reg } := by
  rw [step, hf]
  simp [execInstr, hop]

theorem postFetch_at_pc (s : VM) :
    (postFetch s).reg R_PC = (s.reg R_PC + 1) % 65536 := by
  rw [postFetch_reg]
  simp

theorem op_JSR_r7 (instr : Nat) (r : Nat → Nat) : (op_JSR instr r) R_R7 = r R_PC := by
  unfold op_JSR
  dsimp only
  split_ifs with hb <;>
    rw [upd_ne _ _ _ _ (by decide : R_R7 ≠ R_PC), upd_same]

theorem op_JSR_pc_offset (instr : Nat) (r : Nat → Nat)
    (hb : (instr >>> 11) &&& 1 ≠ 0) :
    (op_JSR instr r) R_PC = (r R_PC + sign_extend (instr &&& 0x7FF) 11) % 65536 := by
  unfold op_JSR
  dsimp only
  rw [if_pos hb, upd_same, upd_ne _ _ _ _ (by decide : R_PC ≠ R_R7)]

theorem op_JSR_pc_base (instr : Nat) (r : Nat → Nat)
    (hb : ¬((instr >>> 11) &&& 1 ≠ 0)) :
    (op_JSR instr r) R_PC =
      if (instr >>> 6) &&& 7 = 7 then r R_PC else r ((instr >>> 6) &&& 7) := by
  unfold op_JSR
  dsimp only
  rw [if_neg hb, upd_same]
  by_cases h7 : (instr >>> 6) &&& 7 = 7
  · rw [if_pos h7, h7]
    rw [show (7 : Nat) = R_R7 from rfl, upd_same]
  · rw [if_neg h7]
    rw [upd_ne _ _ _ _ (by simpa [R_R7] using h7)]

/-- C8: executing JSR first saves the post-fetch PC (the address of the
instruction after the JSR) into R7, and only then updates PC: to
PC + sign-extended PCoffset11 when bit 11 is set, or to the value of
BaseR (bits 8..6, read after the R7 write, so BaseR = R7 yields the
fresh return address) when bit 11 is clear. -/
theorem jsr_saves_return_before_pc_update (s : VM) (instr : Nat)
    (hf : fetched s = instr) (hop : instr >>> 12 = 4) :
    ((step s).map fun t => t.reg R_R7) = some ((s.reg R_PC + 1) % 65536) ∧
    ((instr >>> 11) &&& 1 ≠ 0 →
      ((step s).map fun t => t.reg R_PC) =
        some (((s.reg R_PC + 1) % 65536 + sign_extend (instr &&& 0x7FF) 11) % 65536)) ∧
    ((instr >>> 11) &&& 1 = 0 →
      ((step s).map fun t => t.reg R_PC) =
        some (if (instr >>> 6) &&& 7 = 7 then (s.reg R_PC + 1) % 65536
              else s.reg ((instr >>> 6) &&& 7))) := by
  have hstep := step_jsr s instr hf hop
  refine ⟨?_, ?_, ?_⟩
  · rw [hstep]
    simp only [Option.map_some', Option.some.injEq]
    show (op_JSR instr (postFetch s).reg) R_R7 = _
    rw [op_JSR_r7, postFetch_at_pc]
  · intro hb
    rw [hstep]
    simp only [Option.map_some', Option.some.injEq]
    show (op_JSR instr (postFetch s).reg) R_PC = _
    rw [op_JSR_pc_offset _ _ hb, postFetch_at_pc]
  · intro hb
    rw [hstep]
    simp only [Option.map_some', Option.some.injEq]
    show (op_JSR instr (postFetch s).reg) R_PC = _
    rw [op_JSR_pc_base _ _ (by simp [hb])]
    by_cases h7 : (instr >>> 6) &&& 7 = 7
    · rw [if_pos h7, if_pos h7, postFetch_at_pc]
    · rw [if_neg h7, if_neg h7, postFetch_reg]
      rw [upd_ne _ _ _ _ (Nat.ne_of_lt (lt_of_lt_of_le (and7_lt_8 _) (by decide)))]

/-- Startup state with `JSR #+2` (0x4802) at 0x3000, for the C8 witness. -/
def c8s : VM := startVM (upd (fun _ => 0) 0x3000 0x4802) []

theorem jsr_saves_return_before_pc_update_witness :
    fetched c8s = 0x4802 ∧ (0x4802 : Nat) >>> 12 = 4 ∧
    ((step c8s).map fun t => t.reg R_R7) = some 0x3001 ∧
    ((step c8s).map fun t => t.reg R_PC) = some 0x3003 := by
  have h := jsr_saves_return_before_pc_update c8s 0x4802 rfl (by decide)
  refine ⟨rfl, by decide, ?_, ?_⟩
  · exact h.1.trans (by decide)
  · exact (h.2.1 (by decide)).trans (by decide)

/-- C4 (amended): once COND holds one of the three flag values (as it
does after any flag-updating instruction), BR with mask 0b111 always
adds the sign-extended PCoffset9 to the post-fetch PC; BR with mask
0b000 never changes PC beyond the fetch increment, in every state. -/
theorem br_mask_semantics_after_flags (s : VM) (instr : Nat)
    (hf : fetched s = instr) (hop : instr >>> 12 = 0) :
    (((instr >>> 9) &&& 7 = 7 ∧
      (s.reg R_COND = FL_POS ∨ s.reg R_COND = FL_ZRO ∨ s.reg R_COND = FL_NEG)) →
      ((step s).map fun t => t.reg R_PC) =
        some (((s.reg R_PC + 1) % 65536 + sign_extend (instr &&& 0x1FF) 9) % 65536)) ∧
    ((instr >>> 9) &&& 7 = 0 →
      ((step s).map fun t => t.reg R_PC) = some ((s.reg R_PC + 1) % 65536)) := by
  have hstep := step_br s instr hf hop
  constructor
  · rintro ⟨hmask, hc⟩
    rw [hstep]
    simp only [Option.map_some', Option.some.injEq]
    show (op_BR instr (postFetch s).reg) R_PC = _
    unfold op_BR
    have hcnz : (instr >>> 9) &&& 7 &&& (postFetch s).reg R_COND ≠ 0 := by
      rw [hmask, postFetch_at_cond]
      rcases hc with h | h | h <;> rw [h] <;> decide
    rw [if_pos hcnz, upd_same, postFetch_at_pc]
  · intro hmask
    rw [hstep]
    simp only [Option.map_some', Option.some.injEq]
    show (op_BR instr (postFetch s).reg) R_PC = _
    unfold op_BR
    have hcz : ¬((instr >>> 9) &&& 7 &&& (postFetch s).reg R_COND ≠ 0) := by
      rw [hmask]
      simp
    rw [if_neg hcz, postFetch_at_pc]

/-- A state with COND = P and `BRnzp #1` (0x0E01) at PC = 0x3000, for
the C4 witness. -/
def c4w : VM :=
  { mem := upd (fun _ => 0) 0x3000 0x0E01
    reg := upd (upd (fun _ => 0) R_PC 0x3000) R_COND 1
    input := []
    output := []
    running := true }

theorem br_mask_semantics_after_flags_witness :
    fetched c4w = 0x0E01 ∧ c4w.reg R_COND = FL_POS ∧
    ((step c4w).map fun t => t.reg R_PC) = some 0x3002 := by
  have h := br_mask_semantics_after_flags c4w 0x0E01 rfl (by decide)
  refine ⟨rfl, by decide, ?_⟩
  exact (h.1 ⟨by decide, Or.inl (by decide)⟩).trans (by decide)

/-- C10: executing JSRR (JSR with bit 11 clear) with BaseR = R7 sets PC
to the post-fetch PC of the JSR instruction itself — the return address
just saved into R7 — not to the value R7 held before the instruction,
because R7 is overwritten with PC before PC is assigned from BaseR. -/
theorem jsrr_base_r7_reads_new_r7 (s : VM) (instr : Nat)
    (hf : fetched s = instr) (hop : instr >>> 12 = 4)
    (hbit : (instr >>> 11) &&& 1 = 0) (hbase : (instr >>> 6) &&& 7 = 7) :
    ((step s).map fun t => t.reg R_PC) = some ((s.reg R_PC + 1) % 65536) ∧
    (s.reg R_R7 ≠ (s.reg R_PC + 1) % 65536 →
      ((step s).map fun t => t.reg R_PC) ≠ some (s.reg R_R7)) := by
  have hstep := step_jsr s instr hf hop
  have hpc : ((step s).map fun t => t.reg R_PC) = some ((s.reg R_PC + 1) % 65536) := by
    rw [hstep]
    simp only [Option.map_some', Option.some.injEq]
    show (op_JSR instr (postFetch s).reg) R_PC = _
    rw [op_JSR_pc_base _ _ (by simp [hbit]), if_pos hbase, postFetch_at_pc]
  refine ⟨hpc, ?_⟩
  intro hne heq
  rw [hpc] at heq
  exact hne (Option.some.inj heq).symm

/-- Startup state with `JSRR R7` (0x41C0) at 0x3000 and R7 = 0, for the
C10 witness. -/
def c10s : VM := startVM (upd (fun _ => 0) 0x3000 0x41C0) []

theorem jsrr_base_r7_reads_new_r7_witness :
    fetched c10s = 0x41C0 ∧ c10s.reg R_R7 = 0 ∧
    ((step c10s).map fun t => t.reg R_PC) = some 0x3001 ∧
    ((step c10s).map fun t => t.reg R_PC) ≠ some (c10s.reg R_R7) := by
  have h := jsrr_base_r7_reads_new_r7 c10s 0x41C0 rfl (by decide) (by decide) (by decide)
  refine ⟨rfl, by decide, ?_, ?_⟩
  · exact h.1.trans (by decide)
  · exact h.2 (by decide)

/-- C6: `mem_read(0xFE00)` with a key available first sets
memory[0xFE00] := 0x8000 and memory[0xFE02] := the next character
consumed from stdin, then returns memory[0xFE00]; with no key available
it sets memory[0xFE00] := 0 and returns 0; `mem_read` of any other
address returns memory[addr] and changes nothing. -/
theorem mem_read_kbsr_semantics (s : VM) (a c : Nat) (rest : List Nat) :
    (s.input = c :: rest → c < 256 →
      (mem_read MR_KBSR s).2.mem MR_KBSR = 0x8000 ∧
      (mem_read MR_KBSR s).2.mem MR_KBDR = c ∧
      (mem_read MR_KBSR s).2.input = rest ∧
      (mem_read MR_KBSR s).1 = 0x8000 ∧
      (∀ a2, a2 ≠ MR_KBSR → a2 ≠ MR_KBDR → (mem_read MR_KBSR s).2.mem a2 = s.mem a2)) ∧
    (s.input = [] →
      (mem_read MR_KBSR s).2.mem MR_KBSR = 0 ∧
      (mem_read MR_KBSR s).1 = 0 ∧
      (mem_read MR_KBSR s).2.input = [] ∧
      (∀ a2, a2 ≠ MR_KBSR → (mem_read MR_KBSR s).2.mem a2 = s.mem a2)) ∧
    (a ≠ MR_KBSR → mem_read a s = (s.mem a, s)) := by
  refine ⟨?_, ?_, ?_⟩
  · intro hin hc
    rw [mem_read, if_pos rfl, hin]
    rw [if_pos (by simp [check_key])]
    dsimp only [getchar]
    refine ⟨?_, ?_, rfl, ?_, ?_⟩
    · rw [upd_ne _ _ _ _ (by decide : MR_KBSR ≠ MR_KBDR), upd_same]
      decide
    · rw [upd_same]
      omega
    · rw [upd_ne _ _ _ _ (by decide : MR_KBSR ≠ MR_KBDR), upd_same]
      decide
    · intro a2 h1 h2
      rw [upd_ne _ _ _ _ h2, upd_ne _ _ _ _ h1]
  · intro hin
    rw [mem_read, if_pos rfl, hin]
    rw [if_neg (by simp [check_key])]
    dsimp only
    refine ⟨?_, ?_, rfl, ?_⟩
    · rw [upd_same]
    · rw [upd_same]
    · intro a2 h1
      rw [upd_ne _ _ _ _ h1]
  · intro ha
    rw [mem_read, if_neg ha]

/-- State with pending input byte 65 and a marker at address 5, for the
C6 witness. -/
def c6s : VM :=
  { mem := upd (fun _ => 0) 5 77
    reg := fun _ => 0
    input := [65]
    output := []
    running := true }

theorem mem_read_kbsr_semantics_witness :
    c6s.input = 65 :: [] ∧ (65 : Nat) < 256 ∧
    (mem_read MR_KBSR c6s).2.mem MR_KBSR = 0x8000 ∧
    (mem_read MR_KBSR c6s).2.mem MR_KBDR = 65 ∧
    (mem_read MR_KBSR c6s).1 = 0x8000 ∧
    (5 : Nat) ≠ MR_KBSR ∧ mem_read 5 c6s = (c6s.mem 5, c6s) := by
  have h := mem_read_kbsr_semantics c6s 5 65 []
  have h1 := h.1 rfl (by decide)
  exact ⟨rfl, by decide, h1.1, h1.2.1, h1.2.2.2.1, by decide, h.2.2 (by decide)⟩

theorem putsp_chars_spec : ∀ (k a fuel : Nat) (mem : Nat → Nat), k < fuel →
    (∀ i, i < k → mem (a + i) ≠ 0 ∧ mem (a + i) >>> 8 ≠ 0) →
    (mem (a + k) = 0 ∨ mem (a + k) >>> 8 = 0) →
    putsp_chars mem a fuel =
      ((List.range k).flatMap fun i =>
        [mem (a + i) &&& 0xFF, (mem (a + i) >>> 8) &&& 0xFF]) ++
      (if mem (a + k) = 0 then [] else [mem (a + k) &&& 0xFF]) := by
  intro k
  induction k with
  | zero =>
    intro a fuel mem hf hpre hterm
    match fuel, hf with
    | fuel + 1, _ =>
      rw [putsp_chars]
      simp only [List.range_zero, List.flatMap_nil, List.nil_append, Nat.add_zero] at *
      by_cases h0 : mem a = 0
      · rw [if_pos h0, if_pos h0]
      · rcases hterm with h | h8
        · exact absurd h h0
        · rw [if_neg h0, if_pos h8, if_neg h0]
  | succ k ih =>
    intro a fuel mem hf hpre hterm
    match fuel, hf with
    | fuel + 1, _ =>
      have h0 := hpre 0 (by omega)
      rw [Nat.add_zero] at h0
      rw [putsp_chars, if_neg h0.1, if_neg h0.2]
      have ihh := ih (a + 1) fuel mem (by omega)
        (fun i hi => by
          have := hpre (i + 1) (by omega)
          rwa [show a + (i + 1) = a + 1 + i by omega] at this)
        (by rwa [show a + (k + 1) = a + 1 + k by omega] at hterm)
      rw [ihh]
      rw [List.range_succ_eq_map, List.flatMap_cons, List.flatMap_map]
      simp only [show ∀ i, a + 1 + i = a + (i + 1) from fun i => by omega,
        Nat.add_zero, Nat.succ_eq_add_one]
      simp [List.append_assoc]

/-- C9: TRAP 0x24 (PUTSP) writes, starting at memory[R0], for each
non-zero word its bits 7..0 as a character and then, if bits 15..8 are
non-zero, bits 15..8 as a character; output stops at the first zero
word (which emits nothing) or at the first word whose high byte is zero
(which emits only its low byte). -/
theorem trap_PUTSP_output (s : VM) (k : Nat) (hk : k < 65536)
    (hpre : ∀ i, i < k →
      s.mem (s.reg R_R0 + i) ≠ 0 ∧ s.mem (s.reg R_R0 + i) >>> 8 ≠ 0)
    (hterm : s.mem (s.reg R_R0 + k) = 0 ∨ s.mem (s.reg R_R0 + k) >>> 8 = 0) :
    (trap_PUTSP s).output =
      s.output ++
      (((List.range k).flatMap fun i =>
        [s.mem (s.reg R_R0 + i) &&& 0xFF, (s.mem (s.reg R_R0 + i) >>> 8) &&& 0xFF]) ++
      (if s.mem (s.reg R_R0 + k) = 0 then [] else [s.mem (s.reg R_R0 + k) &&& 0xFF])) := by
  show s.output ++ putsp_chars s.mem (s.reg R_R0) 65536 = _
  rw [putsp_chars_spec k (s.reg R_R0) 65536 s.mem hk hpre hterm]

/-- State with the word string "ab", "c\x00" at 0x3000 and R0 = 0x3000,
for the C9 witness. -/
def c9s : VM :=
  { mem := upd (upd (fun _ => 0) 0x3000 0x6261) 0x3001 0x63
    reg := upd (fun _ => 0) R_R0 0x3000
    input := []
    output := []
    running := true }

theorem trap_PUTSP_output_witness :
    (1 : Nat) < 65536 ∧
    (∀ i, i < 1 → c9s.mem (c9s.reg R_R0 + i) ≠ 0 ∧ c9s.mem (c9s.reg R_R0 + i) >>> 8 ≠ 0) ∧
    (c9s.mem (c9s.reg R_R0 + 1) = 0 ∨ c9s.mem (c9s.reg R_R0 + 1) >>> 8 = 0) ∧
    (trap_PUTSP c9s).output = [0x61, 0x62, 0x63] := by
  refine ⟨by decide, by decide, Or.inr (by decide), ?_⟩
  have h := trap_PUTSP_output c9s 1 (by decide) (by decide) (Or.inr (by decide))
  exact h.trans (by decide)

theorem swap16_bytes (a b : Nat) (ha : a < 256) (hb : b < 256) :
    swap16 (a + 256 * b) = 256 * a + b := by
  unfold swap16
  have h2 : (a + 256 * b) >>> 8 = b := by
    rw [Nat.shiftRight_eq_div_pow]
    have hp : (2 : Nat) ^ 8 = 256 := by norm_num
    rw [hp]
    omega
  rw [h2, Nat.shiftLeft_eq]
  rw [Nat.mul_comm (a + 256 * b) (2 ^ 8)]
  have hb2 : b < 2 ^ 8 := by
    have hp : (2 : Nat) ^ 8 = 256 := by norm_num
    omega
  rw [← Nat.mul_add_lt_is_or hb2 (a + 256 * b)]
  have hp : (2 : Nat) ^ 8 = 256 := by norm_num
  rw [hp]
  omega

/-- The bytes of the image file assembled pairwise into host-order
(little-endian) 16-bit words, as `fread` into a `uint16_t` buffer does;
a trailing odd byte does not form a word. -/
def wordsLE : List Nat → List Nat
  | b0 :: b1 :: rest => ((b0 % 256) + 256 * (b1 % 256)) :: wordsLE rest
  | _ => []

/-- Store a list of 16-bit words sequentially starting at `addr`, as
the byte-swapping loop of `read_image_file` leaves memory. -/
def storeWords : (Nat → Nat) → Nat → List Nat → Nat → Nat
  | mem, _, [] => mem
  | mem, addr, w :: ws => storeWords (upd mem addr (w % 65536)) (addr + 1) ws

/-- `read_image_file` from the source: read the first 16-bit word, byte
swap it to get the origin, then read at most `UINT16_MAX - origin`
further words and byte-swap each into memory starting at the origin.
A file shorter than two bytes leaves `origin` uninitialized in C,
modelled as `none`. -/
def read_image_file (file : List Nat) (mem : Nat → Nat) :
    Option ((Nat → Nat) × Nat) :=
  match file with
  | b0 :: b1 :: rest =>
    let origin := swap16 ((b0 % 256) + 256 * (b1 % 256))
    let max_read := UINT16_MAX - origin
    let ws := ((wordsLE rest).take max_read).map swap16
    some (storeWords mem origin ws, origin)
  | _ => none

theorem storeWords_below : ∀ (ws : List Nat) (mem : Nat → Nat) (addr a : Nat),
    a < addr → storeWords mem addr ws a = mem a
  | [], _, _, _, _ => rfl
  | w :: ws, mem, addr, a, h => by
    rw [storeWords]
    rw [storeWords_below ws _ (addr + 1) a (by omega)]
    exact upd_ne _ _ _ _ (by omega)

theorem storeWords_at : ∀ (ws : List Nat) (mem : Nat → Nat) (addr i : Nat),
    i < ws.length → storeWords mem addr ws (addr + i) = ws.getD i 0 % 65536
  | [], _, _, i, h => absurd h (by simp)
  | w :: ws, mem, addr, 0, _ => by
    rw [storeWords]
    rw [storeWords_below ws _ (addr + 1) (addr + 0) (by omega)]
    simp [upd]
  | w :: ws, mem, addr, i + 1, h => by
    rw [storeWords]
    rw [show addr + (i + 1) = (addr + 1) + i by omega]
    rw [storeWords_at ws _ (addr + 1) i (by simpa using h)]
    rfl

theorem getD_map_swap : ∀ (l : List Nat) (i : Nat), i < l.length →
    (l.map swap16).getD i 0 = swap16 (l.getD i 0)
  | [], i, h => absurd h (by simp)
  | x :: l, 0, _ => rfl
  | x :: l, i + 1, h => by
    simp only [List.map_cons, List.getD_cons_succ]
    exact getD_map_swap l i (by simpa using h)

theorem getD_take : ∀ (l : List Nat) (n i : Nat), i < n →
    (l.take n).getD i 0 = l.getD i 0
  | _, 0, _, h => absurd h (by omega)
  | [], _ + 1, _, _ => by simp
  | _ :: _, _ + 1, 0, _ => rfl
  | _ :: l, n + 1, i + 1, h => by
    simp only [List.take_succ_cons, List.getD_cons_succ]
    exact getD_take l n i (by omega)

theorem wordsLE_length : ∀ l : List Nat, (wordsLE l).length = l.length / 2
  | [] => rfl
  | [_] => by
    show ([] : List Nat).length = 1 / 2
    simp
  | _ :: _ :: rest => by
    rw [wordsLE]
    simp only [List.length_cons]
    rw [wordsLE_length rest]
    omega

theorem wordsLE_getD : ∀ (l : List Nat) (i : Nat), 2 * i + 1 < l.length →
    (wordsLE l).getD i 0 =
      (l.getD (2 * i) 0 % 256) + 256 * (l.getD (2 * i + 1) 0 % 256)
  | [], _, h => absurd h (by simp)
  | [_], _, h => by simp at h
  | _ :: _ :: _, 0, _ => rfl
  | b0 :: b1 :: rest, i + 1, h => by
    rw [wordsLE]
    rw [show 2 * (i + 1) = 2 * i + 1 + 1 by omega]
    simp only [List.getD_cons_succ]
    exact wordsLE_getD rest i (by simp at h; omega)

/-- C7: the loader reads the first word of the image as the big-endian
origin address (256*b0 + b1) and then loads at most 65,536 - origin
subsequent big-endian words into memory starting at the origin (the
code's own cap is UINT16_MAX - origin = 65,535 - origin, which
satisfies the bound; loaded word i is 256*rest[2i] + rest[2i+1]). -/
theorem read_image_file_spec (b0 b1 : Nat) (rest : List Nat)
    (mem mem2 : Nat → Nat) (origin : Nat)
    (h : read_image_file (b0 :: b1 :: rest) mem = some (mem2, origin)) :
    origin = 256 * (b0 % 256) + (b1 % 256) ∧
    (((wordsLE rest).take (UINT16_MAX - origin)).map swap16).length ≤ 65536 - origin ∧
    (∀ i, i < (((wordsLE rest).take (UINT16_MAX - origin)).map swap16).length →
      mem2 (origin + i) =
        256 * (rest.getD (2 * i) 0 % 256) + rest.getD (2 * i + 1) 0 % 256) := by
  rw [read_image_file] at h
  simp only [Option.some.injEq, Prod.mk.injEq] at h
  obtain ⟨hm, ho⟩ := h
  have hswap : swap16 ((b0 % 256) + 256 * (b1 % 256)) =
      256 * (b0 % 256) + (b1 % 256) :=
    swap16_bytes _ _ (Nat.mod_lt _ (by norm_num)) (Nat.mod_lt _ (by norm_num))
  have horigin : origin = 256 * (b0 % 256) + (b1 % 256) := by
    rw [← ho, hswap]
  subst ho
  refine ⟨horigin, ?_, ?_⟩
  · rw [List.length_map, List.length_take]
    have : UINT16_MAX - swap16 (b0 % 256 + 256 * (b1 % 256)) ≤
        65536 - swap16 (b0 % 256 + 256 * (b1 % 256)) := by
      rw [UINT16_MAX]
      omega
    omega
  · intro i hi
    rw [List.length_map, List.length_take] at hi
    have hiw : i < (wordsLE rest).length := by omega
    have hit : i < UINT16_MAX - swap16 (b0 % 256 + 256 * (b1 % 256)) := by omega
    have hitake : i < ((wordsLE rest).take
        (UINT16_MAX - swap16 (b0 % 256 + 256 * (b1 % 256)))).length := by
      rw [List.length_take]
      omega
    rw [← hm]
    rw [storeWords_at _ _ _ _ (by rw [List.length_map]; exact hitake)]
    rw [getD_map_swap _ _ hitake]
    rw [getD_take _ _ _ hit]
    have hrest : 2 * i + 1 < rest.length := by
      rw [wordsLE_length] at hiw
      omega
    rw [wordsLE_getD _ _ hrest]
    rw [swap16_bytes _ _ (Nat.mod_lt _ (by norm_num)) (Nat.mod_lt _ (by norm_num))]
    have hlt : 256 * (rest.getD (2 * i) 0 % 256) + rest.getD (2 * i + 1) 0 % 256 <
        65536 := by
      have h1 : rest.getD (2 * i) 0 % 256 < 256 := Nat.mod_lt _ (by norm_num)
      have h2 : rest.getD (2 * i + 1) 0 % 256 < 256 := Nat.mod_lt _ (by norm_num)
      omega
    exact Nat.mod_eq_of_lt hlt

/-- The loader result on the image file 30 00 12 34 (origin 0x3000,
one word 0x1234), for the C7 witness. -/
def c7r : (Nat → Nat) × Nat :=
  (read_image_file [0x30, 0x00, 0x12, 0x34] (fun _ => 0)).getD ((fun _ => 0), 0)

theorem read_image_file_spec_witness :
    read_image_file [0x30, 0x00, 0x12, 0x34] (fun _ => 0) = some (c7r.1, c7r.2) ∧
    c7r.2 = 0x3000 ∧ c7r.1 0x3000 = 0x1234 := by
  have h := read_image_file_spec 0x30 0x00 [0x12, 0x34] (fun _ => 0) c7r.1 c7r.2 rfl
  refine ⟨rfl, h.1.trans (by decide), ?_⟩
  have h2 : c7r.2 = 0x3000 := h.1.trans (by decide)
  have h3 := h.2.2 0 (by decide)
  rw [h2] at h3
  simpa using h3
